import Mathlib

/-!
Verification of the duplicate-group resolution engine in remove_dupes.py.

The Python source is shallowly embedded: catalog rows become the Entry
structure, Python dicts keyed by phash become association lists preserving
insertion order, fallible Python operations (comparisons against None,
sum over None, uncaught exceptions) become Except-valued functions, and
external effects (filesystem, HTTP requests, console input, OpenCV
decoding) are supplied as explicit oracle values so that every embedded
function stays total and executable.
-/

namespace PhashUtils

/-- Python exceptions that the embedded code can raise or catch. -/
inductive PyErr
  | typeError
  | eofError
  | requestError
  | fileNotFound
  | valueError
  deriving DecidableEq

/-- One catalog row in the shape built by build_dict_from_rows: the fields the
resolution engine reads. file_size, duration and file_model are Option-valued
because the row normalization turns absent or empty SQL values into the None
missing marker. file_path is the derived parent-plus-basename path. -/
structure Entry where
  file_id : Int
  file_model : Option String
  file_path : String
  file_size : Option Int
  phash : String
  duration : Option Rat
  deriving DecidableEq

/-- One raw SQL column value as seen by build_dict_from_rows before
normalization. -/
inductive Cell
  | null
  | str (s : String)
  | intv (n : Int)
  | floatv (q : Rat)
  deriving DecidableEq

/-- Normalization applied by build_dict_from_rows to each column value:
values that are None or the empty string become the explicit None marker,
everything else is kept unchanged (lines 100-104 of remove_dupes.py). -/
def normalizeCell (value : Cell) : Cell :=
  if value = Cell.null ∨ value = Cell.str "" then Cell.null else value

/-- Embedding of build_dict_from_rows restricted to the per-value
normalization loop: each row's column values are normalized in place.
The fixed column naming and the file_path concatenation of lines 81-105
are carried by the Entry structure and are not re-modelled here. -/
def build_dict_from_rows (rows : List (List Cell)) : List (List Cell) :=
  rows.map (fun row => row.map normalizeCell)

/-! ## Group Builder: group_by_phash (lines 148-158) -/

/-- Insertion into the python dict groups: append to the existing bucket for
the key if present, otherwise create a new bucket at the end (python dicts
preserve insertion order). -/
def gbp_insert (acc : List (String × List Entry)) (h : String) (e : Entry) :
    List (String × List Entry) :=
  match acc with
  | [] => [(h, [e])]
  | (k, b) :: rest =>
      if k = h then (k, b ++ [e]) :: rest else (k, b) :: gbp_insert rest h e

/-- The entry loop of group_by_phash in exact-match mode: entries whose phash
is in the blacklist are skipped, the rest are appended to the bucket of their
own phash. -/
def gbp_fold (bl : List String) : List Entry → List (String × List Entry) →
    List (String × List Entry)
  | [], acc => acc
  | e :: rest, acc =>
      if e.phash ∈ bl then gbp_fold bl rest acc
      else gbp_fold bl rest (gbp_insert acc e.phash e)

/-- Embedding of group_by_phash. The python function only has a body under
the exact_match branch, so with exact_match set to False it falls off the end
and returns None, modelled here as the none value. -/
def group_by_phash (entries : List Entry) (exact_match : Bool)
    (blacklisted_phashes : List String) : Option (List (String × List Entry)) :=
  if exact_match then some (gbp_fold blacklisted_phashes entries []) else none

/-- Lookup in an association list modelling a python dict access. -/
def alookup (h : String) : List (String × List Entry) → Option (List Entry)
  | [] => none
  | (k, b) :: rest => if k = h then some b else alookup h rest

/-- Keys of an association list, in insertion order. -/
def akeys (gs : List (String × List Entry)) : List String :=
  gs.map Prod.fst

/-! ## Group Builder: get_curated_grouped_entries (lines 109-146) -/

/-- Python sum over the file_size fields of a group. Summing a None value
raises TypeError in python (None + int), so the sum is fallible; the first
missing value aborts it. -/
def sumSizes : List Entry → Except PyErr Int
  | [] => Except.ok 0
  | e :: rest =>
      match e.file_size with
      | none => Except.error PyErr.typeError
      | some s => (sumSizes rest).map (fun t => s + t)

/-- Python sum over the duration fields of a group, fallible for the same
reason as sumSizes. -/
def sumDurations : List Entry → Except PyErr Rat
  | [] => Except.ok 0
  | e :: rest =>
      match e.duration with
      | none => Except.error PyErr.typeError
      | some d => (sumDurations rest).map (fun t => d + t)

/-- Python round() on a rational: round half to even (banker's rounding). -/
def pyRound (q : Rat) : Int :=
  let f := q.floor
  if q - (f : Rat) < 1 / 2 then f
  else if 1 / 2 < q - (f : Rat) then f + 1
  else if f % 2 = 0 then f else f + 1

/-- The min_size dict comprehension of get_curated_grouped_entries: keep the
groups whose summed file_size reaches the bound. The sums are computed group
by group in order, and the first group with a missing file_size aborts the
whole comprehension with TypeError. -/
def filterBySumSize (m : Int) : List (String × List Entry) →
    Except PyErr (List (String × List Entry))
  | [] => Except.ok []
  | g :: rest => do
      let s ← sumSizes g.2
      let r ← filterBySumSize m rest
      pure (if m ≤ s then g :: r else r)

/-- The min_duration dict comprehension of get_curated_grouped_entries: keep
the groups whose rounded summed duration reaches the bound, fallible like
filterBySumSize. -/
def filterBySumDuration (m : Int) : List (String × List Entry) →
    Except PyErr (List (String × List Entry))
  | [] => Except.ok []
  | g :: rest => do
      let d ← sumDurations g.2
      let r ← filterBySumDuration m rest
      pure (if m ≤ pyRound d then g :: r else r)

/-- Embedding of get_curated_grouped_entries. The filesystem existence check
os.path.exists is supplied as the oracle fs. The five dict comprehensions of
the source are applied in the same order: drop groups with fewer than two
members, drop members whose path does not exist, re-drop groups that fell
below two members, then the optional aggregate size and duration filters. -/
def get_curated_grouped_entries (fs : String → Bool)
    (result_dict : List (String × List Entry))
    (min_size : Option Int) (min_duration : Option Int) :
    Except PyErr (List (String × List Entry)) := do
  let c1 := result_dict.filter (fun g => 1 < g.2.length)
  let c2 := c1.map (fun g => (g.1, g.2.filter (fun e => fs e.file_path)))
  let c3 := c2.filter (fun g => 1 < g.2.length)
  let c4 ← match min_size with
    | none => pure c3
    | some m => filterBySumSize m c3
  match min_duration with
  | none => pure c4
  | some m => filterBySumDuration m c4

/-! ## Keeper Selection Policy (lines 186-208) -/

/-- Size of an entry whose file_size is known present. -/
def szv (e : Entry) : Int := e.file_size.getD 0

/-- Splitting a path on slashes with a structural recursion over its
characters, modelling the component view that pathlib exposes. -/
def splitSlash : List Char → List (List Char)
  | [] => [[]]
  | c :: cs =>
      match splitSlash cs, decide (c = '/') with
      | r, true => [] :: r
      | [], false => [[c]]
      | x :: xs, false => (c :: x) :: xs

/-- Name of the immediate parent directory of a path, as in
Path(file_path).parent.name: the second-to-last nonempty path component,
or the empty string when the path has fewer than two components. -/
def parent_dir_name (p : String) : String :=
  let parts := ((splitSlash p.toList).map (fun l => String.mk l)).filter
    (fun s => s ≠ "")
  if 2 ≤ parts.length then parts.getD (parts.length - 2) "" else ""

/-- Premium classification used by separate_premium_and_non_premium_files:
an entry is premium exactly when its parent directory is named premium. -/
def isPremium (e : Entry) : Bool := parent_dir_name e.file_path = "premium"

/-- The accumulation loop of separate_premium_and_non_premium_files
(lines 189-198), preserving the relative order inside each part. -/
def separate_premium_and_non_premium_files : List Entry → List Entry × List Entry
  | [] => ([], [])
  | e :: rest =>
      let (p, n) := separate_premium_and_non_premium_files rest
      if isPremium e then (e :: p, n) else (p, e :: n)

/-- Stable insertion keeping the list sorted by descending file_size: the
inserted element, which comes earlier in the original list, is placed before
every element of equal key. -/
def insertBySizeDesc (e : Entry) : List Entry → List Entry
  | [] => [e]
  | x :: xs => if szv x ≤ szv e then e :: x :: xs else x :: insertBySizeDesc e xs

/-- Stable descending sort by file_size. A stable sort over a total key
preorder has a unique output, so this insertion sort agrees with the stable
python sorted(group, key=size, reverse=True) of line 187. -/
def sortDescBySize : List Entry → List Entry
  | [] => []
  | e :: rest => insertBySizeDesc e (sortDescBySize rest)

/-- Embedding of sort_files_by_size (lines 186-187). Python sorted compares
elements with the less-than operator: with at least two elements every
element takes part in a comparison, so a single missing file_size raises
TypeError, while lists of at most one element are returned without any
comparison. -/
def sort_files_by_size (group : List Entry) : Except PyErr (List Entry) :=
  if group.length ≤ 1 then Except.ok group
  else if group.all (fun e => e.file_size.isSome) then
    Except.ok (sortDescBySize group)
  else Except.error PyErr.typeError

/-- The scanning loop of find_biggest_file (lines 200-208) carried out on
the running best. A None best is always replaced by the next entry without
comparing. Comparing a missing file_size with the greater-than operator
raises TypeError; when the greater-than comparison succeeded, both sizes are
present, so the equality test of the elif branch cannot raise. On equality
the challenger replaces the best exactly when it lies in premium_files,
regardless of the premium status of the current best. -/
def fbf_loop (premium_files : List Entry) :
    Option Entry → List Entry → Except PyErr (Option Entry)
  | best, [] => Except.ok best
  | none, e :: rest => fbf_loop premium_files (some e) rest
  | some b, e :: rest =>
      match e.file_size, b.file_size with
      | some se, some sb =>
          if sb < se then fbf_loop premium_files (some e) rest
          else if se = sb then
            if e ∈ premium_files then fbf_loop premium_files (some e) rest
            else fbf_loop premium_files (some b) rest
          else fbf_loop premium_files (some b) rest
      | _, _ => Except.error PyErr.typeError

/-- Embedding of find_biggest_file (lines 200-208). -/
def find_biggest_file (group premium_files : List Entry) :
    Except PyErr (Option Entry) :=
  fbf_loop premium_files none group

/-- Pure counterpart of the find_biggest_file scan for groups whose sizes
are all present: fold the replacement step over the group. -/
def fbf_scan (premium_files : List Entry) (first : Entry) (rest : List Entry) :
    Entry :=
  rest.foldl
    (fun b e =>
      if szv b < szv e then e
      else if szv e = szv b ∧ e ∈ premium_files then e
      else b)
    first

/-- Replacement step written the way the specification states it: on an exact
size tie the challenger wins only when it is premium and the current best is
not. Used to compare the stated policy against the embedded code. -/
def fbf_scan_specTie (premium_files : List Entry) (first : Entry)
    (rest : List Entry) : Entry :=
  rest.foldl
    (fun b e =>
      if szv b < szv e then e
      else if szv e = szv b ∧ e ∈ premium_files ∧ b ∉ premium_files then e
      else b)
    first

/-! ## Deletion: remove_file (lines 468-477) -/

/-- Observation made by one iteration of the remove_file loop. gone: the
while condition sees the path absent and the loop exits. unlinkOk: the path
exists and unlink succeeds. unlinkPerm: the path exists and unlink raises
PermissionError. unlinkGone: the path exists at the while check but vanishes
before unlink, which then raises FileNotFoundError. -/
inductive FsStep
  | gone
  | unlinkOk
  | unlinkPerm
  | unlinkGone
  deriving DecidableEq

/-- Externally visible action of the remove_file loop. -/
inductive RmEvt
  | unlinked
  | slept (units : Nat)
  deriving DecidableEq

/-- The while loop of remove_file driven by a finite trace of filesystem
observations; an exhausted trace behaves like a final absent observation.
Only PermissionError is caught (followed by time.sleep(1) and a retry);
FileNotFoundError from a vanish race escapes the loop. -/
def remove_file_loop : List FsStep → Except PyErr (List RmEvt)
  | [] => Except.ok []
  | FsStep.gone :: _ => Except.ok []
  | FsStep.unlinkOk :: rest =>
      (remove_file_loop rest).map (fun evs => RmEvt.unlinked :: evs)
  | FsStep.unlinkPerm :: rest =>
      (remove_file_loop rest).map (fun evs => RmEvt.slept 1 :: evs)
  | FsStep.unlinkGone :: _ => Except.error PyErr.fileNotFound

/-- Embedding of remove_file: the guarding existence check of line 470
followed by the retry loop. -/
def remove_file (exists_at_start : Bool) (trace : List FsStep) :
    Except PyErr (List RmEvt) :=
  if exists_at_start then remove_file_loop trace else Except.ok []

/-! ## Similarity Verifier: is_frames_match (lines 355-445) -/

/-- A decoded frame: spatial dimensions and a pixel function. OpenCV decodes
video frames and still images as three-channel uint8 arrays, so the channel
count is fixed at three and the numpy shape is determined by h and w. -/
structure Frame where
  h : Nat
  w : Nat
  data : Nat → Nat → Nat → Int

/-- Numpy shape restricted to the spatial dimensions. -/
def Frame.shape (f : Frame) : Nat × Nat := (f.h, f.w)

/-- A media path together with what OpenCV observes on it: whether
cv2.VideoCapture(path).isOpened() is true, the first frame cap.read()
yields if any, and the image cv2.imread decodes if any. -/
structure MediaPath where
  opensAsVideo : Bool
  firstFrame : Option Frame
  imageData : Option Frame

/-- External OpenCV resize together with the configured MSE thresholds.
cv2.resize is an external collaborator, so it is carried as an oracle taking
the target height and width. -/
structure CvConfig where
  resize : Frame → Nat → Nat → Frame
  mse_video_threshold : Rat
  mse_image_threshold : Rat

/-- One squared pixel difference under numpy uint8 arithmetic: both the
subtraction and the square wrap modulo 256. -/
def pixDiffSq (a b : Int) : Int := ((a - b) % 256) ^ 2 % 256

/-- Numerator of the numpy mean of the squared difference array: the sum of
the wrapped squared differences over all pixels and the three channels. -/
def mseNum (f g : Frame) : Int :=
  ((List.range f.h).map (fun i =>
    ((List.range f.w).map (fun j =>
      ((List.range 3).map (fun k => pixDiffSq (f.data i j k) (g.data i j k))).sum)).sum)).sum

/-- Mean squared error between two frames of equal shape: the sum of the
wrapped squared differences divided by the pixel count (as the exact
rational mkRat quotient). -/
def mseVal (f g : Frame) : Rat :=
  mkRat (mseNum f g) (f.h * f.w * 3)

/-- The is_video classifier of line 356-358: only whether the path opens as
a video stream; no frame is read. -/
def is_video (p : MediaPath) : Bool := p.opensAsVideo

/-- The is_image classifier of line 360-362: whether cv2.imread decodes the
path. -/
def is_image (p : MediaPath) : Bool := p.imageData.isSome

/-- Comparison loop shared by is_video_frames_match and
is_image_frames_match, abstracted over the frame reader and the threshold.
The running first frame is reassigned whenever a resize happens, exactly as
the python loop reassigns frame1. When the resize oracle fails to produce a
frame of the second frame's shape, the numpy subtraction raises a broadcast
error which the surrounding handler converts to a False result with an error
message. -/
def framesLoop (cfg : CvConfig) (thr : Rat) (getFrame : MediaPath → Option Frame) :
    Option Frame → List MediaPath → Bool × List String
  | _, [] => (true, [])
  | frame1, p :: rest =>
      match frame1, getFrame p with
      | none, _ => (false, [])
      | some _, none => (false, [])
      | some f1, some f2 =>
          let f1n := if f1.shape ≠ f2.shape then cfg.resize f1 f2.h f2.w else f1
          if f1n.shape = f2.shape then
            if thr < mseVal f1n f2 then (false, [])
            else framesLoop cfg thr getFrame (some f1n) rest
          else (false, ["An error occurred"])

/-- Embedding of is_video_frames_match (lines 364-397): read the first frame
of the first video, then compare it pairwise against the first frame of every
later video. Indexing an empty path list raises, which the handler converts
to a False result with an error message. -/
def is_video_frames_match (cfg : CvConfig) (video_paths : List MediaPath) :
    Bool × List String :=
  match video_paths with
  | [] => (false, ["An error occurred"])
  | p :: rest => framesLoop cfg cfg.mse_video_threshold MediaPath.firstFrame p.firstFrame rest

/-- Embedding of is_image_frames_match (lines 399-428): the same algorithm
on whole decoded images with the image threshold. -/
def is_image_frames_match (cfg : CvConfig) (image_paths : List MediaPath) :
    Bool × List String :=
  match image_paths with
  | [] => (false, ["An error occurred"])
  | p :: rest => framesLoop cfg cfg.mse_image_threshold MediaPath.imageData p.imageData rest

/-- Embedding of is_frames_match (lines 430-445): classify all paths, use
the video comparator when all open as videos, else the image comparator when
all decode as images, else report an unsupported input type and return
False. -/
def is_frames_match (cfg : CvConfig) (file_paths : List MediaPath) :
    Bool × List String :=
  if file_paths.all is_video then is_video_frames_match cfg file_paths
  else if file_paths.all is_image then is_image_frames_match cfg file_paths
  else (false, ["Unsupported input type"])

/-- Comparison loop written the way the specification states it: the second
frame is resized to the first frame's spatial dimensions and the first frame
is left unchanged. Used to compare the stated normalization against the
embedded code. -/
def framesLoop_specResize (cfg : CvConfig) (thr : Rat)
    (getFrame : MediaPath → Option Frame) :
    Option Frame → List MediaPath → Bool × List String
  | _, [] => (true, [])
  | frame1, p :: rest =>
      match frame1, getFrame p with
      | none, _ => (false, [])
      | some _, none => (false, [])
      | some f1, some f2 =>
          let f2n := if f1.shape ≠ f2.shape then cfg.resize f2 f1.h f1.w else f2
          if f1.shape = f2n.shape then
            if thr < mseVal f1 f2n then (false, [])
            else framesLoop_specResize cfg thr getFrame (some f1) rest
          else (false, ["An error occurred"])

/-- Video comparator as the specification states it, built on
framesLoop_specResize. -/
def is_video_frames_match_specResize (cfg : CvConfig)
    (video_paths : List MediaPath) : Bool × List String :=
  match video_paths with
  | [] => (false, ["An error occurred"])
  | p :: rest =>
      framesLoop_specResize cfg cfg.mse_video_threshold MediaPath.firstFrame p.firstFrame rest

/-! ## Resolution Driver (lines 210-353), with the notification client
(lines 25-53) -/

/-- Outcome of one requests.get call: either a response status code, or a
raised requests.exceptions.ConnectionError, or a raised request exception of
another kind such as a read timeout. -/
inductive ReqOut
  | status (code : Nat)
  | raiseConn
  | raiseOther
  deriving DecidableEq

/-- Embedding of is_server_live (lines 25-30): true exactly on status 200;
only ConnectionError is caught and turned into False, any other request
exception escapes. -/
def is_server_live (r : ReqOut) : Except PyErr Bool :=
  match r with
  | ReqOut.status c => Except.ok (c = 200)
  | ReqOut.raiseConn => Except.ok false
  | ReqOut.raiseOther => Except.error PyErr.requestError

/-- Externally visible action of the resolution driver. deleted records an
invocation of remove_file on a path, notified records an update request to
the flask server, logged records the console notices the claims talk about;
the remaining console output is not tracked. -/
inductive Event
  | deleted (p : String)
  | notified (video1 video2 ph : String)
  | logged (msg : String)
  deriving DecidableEq

/-- Embedding of update_videos (lines 33-53): the update request is issued
with the keeper path first; every RequestException is caught inside the
function, so the call never raises and its only tracked effect is the
notification attempt itself. -/
def update_videos (_r : ReqOut) (video1_path video2_path ph : String) :
    List Event :=
  [Event.notified video1_path video2_path ph]

/-- Oracles the driver runs against: the similarity verifier outcome per
path list (the verifier itself is embedded separately above), and the
outcomes of the liveness probe and of the update request. -/
structure Env where
  frames : List String → Bool
  probe : ReqOut
  update : ReqOut

/-- Python membership of an element in the running list of a set build:
used to model set(...) as a first-occurrence deduplication. CPython
iterates a set in hash order; only the size of the set and which elements
occur matter to the claims, so insertion order is fixed here. -/
def pySetList (l : List (Option String)) : List (Option String) :=
  l.foldl (fun acc x => if x ∈ acc then acc else acc ++ [x]) []

/-- Subscripting a possibly-None biggest_file, which in python raises
TypeError when the value is None. -/
def getEntry : Option Entry → Except PyErr Entry
  | some e => Except.ok e
  | none => Except.error PyErr.typeError

/-- Python str.lower restricted to the characters involved in the prompt
answers. -/
def pyLower (s : String) : String := String.mk (s.toList.map Char.toLower)

/-- Python max(files, key=size) of line 293-295: ValueError on an empty
list, the first maximal element otherwise; with at least two elements a
missing file_size raises TypeError during a comparison. -/
def pyMaxBySize : List Entry → Except PyErr Entry
  | [] => Except.error PyErr.valueError
  | [e] => Except.ok e
  | e :: rest =>
      if (e :: rest).all (fun x => x.file_size.isSome) then
        Except.ok (rest.foldl (fun b x => if szv b < szv x then x else b) e)
      else Except.error PyErr.typeError

/-- The candidate loop of process_same_model_files (lines 239-277). For each
non-keeper entry: compute the pairwise frames match, probe the flask server
(OUTPUT_TO_FLASK is the constant True) and send the update only when the
probe returned live, then delete automatically when the frames matched, or
consume one operator answer and delete unless it lowercases to n. Reading an
answer from an exhausted input stream raises EOFError. Console output other
than the tracked events is elided. -/
def psm_loop (env : Env) (biggest_file : Option Entry) (auto_delete : Bool) :
    List Entry → List String → Except PyErr (List Event × List String)
  | [], ins => Except.ok ([], ins)
  | e :: rest, ins =>
      if some e = biggest_file then psm_loop env biggest_file auto_delete rest ins
      else do
        let b ← getEntry biggest_file
        let fm := env.frames [e.file_path, b.file_path]
        let live ← is_server_live env.probe
        let nev := if live then update_videos env.update b.file_path e.file_path e.phash else []
        if auto_delete then
          if fm then do
            let (evs, ins2) ← psm_loop env biggest_file auto_delete rest ins
            Except.ok (nev ++ Event.deleted e.file_path :: evs, ins2)
          else do
            let (evs, ins2) ← psm_loop env biggest_file auto_delete rest ins
            Except.ok (nev ++ evs, ins2)
        else
          match ins with
          | [] => Except.error PyErr.eofError
          | choice :: ins1 =>
              if pyLower choice ≠ "n" then do
                let (evs, ins2) ← psm_loop env biggest_file auto_delete rest ins1
                Except.ok (nev ++ Event.deleted e.file_path :: evs, ins2)
              else do
                let (evs, ins2) ← psm_loop env biggest_file auto_delete rest ins1
                Except.ok (nev ++ evs, ins2)

/-- Embedding of process_same_model_files (lines 236-277): the loop runs
over the premium files followed by the non-premium files. -/
def process_same_model_files (env : Env) (biggest_file : Option Entry)
    (premium_files non_premium_files : List Entry) (auto_delete : Bool)
    (ins : List String) : Except PyErr (List Event × List String) :=
  psm_loop env biggest_file auto_delete (premium_files ++ non_premium_files) ins

/-- The per-model reporting loop of process_different_model_files
(lines 289-319): for each distinct model, pick its largest member, compute
its frames match against the global keeper, and notify the flask server
after a successful liveness probe. -/
def pdm_model_loop (env : Env) (biggest_file : Option Entry)
    (group : List Entry) : List (Option String) → Except PyErr (List Event)
  | [] => Except.ok []
  | m :: ms => do
      let files_with_model := group.filter (fun e => e.file_model = m)
      let bfwm ← pyMaxBySize files_with_model
      let b ← getEntry biggest_file
      let _fm := env.frames [bfwm.file_path, b.file_path]
      let live ← is_server_live env.probe
      let nev := if live then update_videos env.update b.file_path bfwm.file_path bfwm.phash else []
      let rest ← pdm_model_loop env biggest_file group ms
      Except.ok (nev ++ rest)

/-- The deletion loop of process_different_model_files (lines 324-350) over
the members whose model differs from the chosen one, with the same
notify-then-delete structure as the single-model loop. -/
def pdm_delete_loop (env : Env) (biggest_file : Option Entry)
    (chosen_model : String) (auto_delete : Bool) :
    List Entry → List String → Except PyErr (List Event × List String)
  | [], ins => Except.ok ([], ins)
  | e :: rest, ins =>
      if e.file_model = some chosen_model then
        pdm_delete_loop env biggest_file chosen_model auto_delete rest ins
      else do
        let b ← getEntry biggest_file
        let fm := env.frames [e.file_path, b.file_path]
        let live ← is_server_live env.probe
        let nev := if live then update_videos env.update b.file_path e.file_path e.phash else []
        if auto_delete then
          if fm then do
            let (evs, ins2) ← pdm_delete_loop env biggest_file chosen_model auto_delete rest ins
            Except.ok (nev ++ Event.deleted e.file_path :: evs, ins2)
          else do
            let (evs, ins2) ← pdm_delete_loop env biggest_file chosen_model auto_delete rest ins
            Except.ok (nev ++ evs, ins2)
        else
          match ins with
          | [] => Except.error PyErr.eofError
          | choice :: ins1 =>
              if pyLower choice ≠ "n" then do
                let (evs, ins2) ← pdm_delete_loop env biggest_file chosen_model auto_delete rest ins1
                Except.ok (nev ++ Event.deleted e.file_path :: evs, ins2)
              else do
                let (evs, ins2) ← pdm_delete_loop env biggest_file chosen_model auto_delete rest ins1
                Except.ok (nev ++ evs, ins2)

/-- Embedding of process_different_model_files (lines 279-350): a group-wide
frames pre-check that only warns, the per-model reporting loop, one operator
answer selecting the model to preserve, then the deletion loop. -/
def process_different_model_files (env : Env) (group : List Entry)
    (biggest_file : Option Entry) (premium_files non_premium_files : List Entry)
    (auto_delete : Bool) (ins : List String) :
    Except PyErr (List Event × List String) := do
  let warn :=
    if env.frames ((premium_files ++ non_premium_files).map Entry.file_path) then []
    else [Event.logged "Frames do not match for all files in group. Be weary!"]
  let file_models := pySetList (group.map Entry.file_model)
  let evs1 ← pdm_model_loop env biggest_file group file_models
  match ins with
  | [] => Except.error PyErr.eofError
  | chosen :: ins1 => do
      let (evs2, ins2) ← pdm_delete_loop env biggest_file chosen auto_delete group ins1
      Except.ok (warn ++ evs1 ++ evs2, ins2)

/-- Embedding of process_group (lines 210-234): sort by size, partition by
premium, in automatic mode abort the group with the two console notices when
the group-wide frames match fails, otherwise select the keeper and branch on
model homogeneity. -/
def process_group (env : Env) (group : List Entry) (auto_delete : Bool)
    (ins : List String) : Except PyErr (List Event × List String) := do
  let sorted_files ← sort_files_by_size group
  let (premium_files, non_premium_files) := separate_premium_and_non_premium_files sorted_files
  if auto_delete &&
      !env.frames ((premium_files ++ non_premium_files).map Entry.file_path) then
    Except.ok ([Event.logged "In auto-delete mode.",
      Event.logged "Frames do not match. Skipping group."], ins)
  else do
    let biggest_file ← find_biggest_file group premium_files
    let all_same_model := (pySetList (group.map Entry.file_model)).length = 1
    if all_same_model then
      process_same_model_files env biggest_file premium_files non_premium_files auto_delete ins
    else
      process_different_model_files env group biggest_file premium_files
        non_premium_files auto_delete ins

/-! ## Specification-side pure descriptions and concrete instances used by
the theorems -/

/-- Join of an existing bucket with the entries a scan appends to it:
describes what a bucket of group_by_phash looks up to. -/
def bucketJoin (o : Option (List Entry)) (f : List Entry) : Option (List Entry) :=
  match o with
  | some b => some (b ++ f)
  | none => if f = [] then none else some f

/-- Decision of the aggregate-size filter for one group, with a failed sum
counting as a rejection; total so the pure pipeline below is executable. -/
def sizeOkB (m : Int) (g : List Entry) : Bool :=
  match sumSizes g with
  | Except.ok s => decide (m ≤ s)
  | Except.error _ => false

/-- Decision of the aggregate-duration filter for one group, as sizeOkB. -/
def durOkB (m : Int) (g : List Entry) : Bool :=
  match sumDurations g with
  | Except.ok d => decide (m ≤ pyRound d)
  | Except.error _ => false

/-- Pure pipeline stated the way the specification lists the curation steps:
drop groups with fewer than two members, drop members whose path does not
exist, re-drop groups that fell below two members, then the optional
aggregate size and duration threshold filters, in this order. -/
def curatedPure (fs : String → Bool) (gs : List (String × List Entry))
    (ms md : Option Int) : List (String × List Entry) :=
  let c1 := gs.filter (fun g => 1 < g.2.length)
  let c2 := c1.map (fun g => (g.1, g.2.filter (fun e => fs e.file_path)))
  let c3 := c2.filter (fun g => 1 < g.2.length)
  let c4 := match ms with
    | none => c3
    | some m => c3.filter (fun g => sizeOkB m g.2)
  match md with
  | none => c4
  | some m => c4.filter (fun g => durOkB m g.2)

/-- Concrete entry: the larger member of the worked single-model group. -/
def eA : Entry :=
  { file_id := 1, file_model := some "m", file_path := "a/b.mp4",
    file_size := some 10, phash := "ph1", duration := some 60 }

/-- Concrete entry: the smaller member of the worked single-model group. -/
def eB : Entry :=
  { file_id := 2, file_model := some "m", file_path := "a/c.mp4",
    file_size := some 5, phash := "ph1", duration := some 60 }

/-- Concrete premium entry tied in size with P2. -/
def P1 : Entry :=
  { file_id := 3, file_model := some "m", file_path := "d/premium/p1.mp4",
    file_size := some 5, phash := "ph2", duration := none }

/-- Concrete premium entry tied in size with P1 and encountered after it. -/
def P2 : Entry :=
  { file_id := 4, file_model := some "m", file_path := "d/premium/p2.mp4",
    file_size := some 5, phash := "ph2", duration := none }

/-- Concrete entry used for the grouping witness. -/
def entryW : Entry :=
  { file_id := 5, file_model := none, file_path := "w/x.mp4",
    file_size := none, phash := "h1", duration := none }

/-- Concrete entry with a missing file_size. -/
def rA : Entry :=
  { file_id := 6, file_model := some "m", file_path := "e/a.mp4",
    file_size := none, phash := "h8", duration := some 10 }

/-- Concrete entry grouped with rA. -/
def rB : Entry :=
  { file_id := 7, file_model := some "m", file_path := "e/b.mp4",
    file_size := some 5, phash := "h8", duration := some 10 }

/-- Concrete one-by-one frame of zeros. -/
def fz1 : Frame := { h := 1, w := 1, data := fun _ _ _ => 0 }

/-- Concrete two-by-one frame of fours. -/
def fz2 : Frame := { h := 2, w := 1, data := fun _ _ _ => 4 }

/-- Concrete OpenCV oracle: resizing yields a zero frame of the requested
spatial dimensions, and both thresholds are 10. -/
def cfg0 : CvConfig :=
  { resize := fun _ hh ww => { h := hh, w := ww, data := fun _ _ _ => 0 },
    mse_video_threshold := 10, mse_image_threshold := 10 }

/-- Concrete media path carrying fz1 as a video frame. -/
def pA : MediaPath := { opensAsVideo := true, firstFrame := some fz1, imageData := none }

/-- Concrete media path carrying fz2 as a video frame. -/
def pB : MediaPath := { opensAsVideo := true, firstFrame := some fz2, imageData := none }

/-- Concrete media path that opens as a video stream but yields no readable
frame and does not decode as an image. -/
def p0 : MediaPath := { opensAsVideo := true, firstFrame := none, imageData := none }

/-- Concrete media path that neither opens as a video nor decodes as an
image. -/
def pNone : MediaPath := { opensAsVideo := false, firstFrame := none, imageData := none }

/-- Concrete driver oracle whose similarity verifier always answers false. -/
def env0 : Env := { frames := fun _ => false, probe := ReqOut.status 200, update := ReqOut.status 200 }

/-- Concrete driver oracle whose liveness probe raises a ConnectionError. -/
def env1 : Env := { frames := fun _ => true, probe := ReqOut.raiseConn, update := ReqOut.status 200 }

/-- Concrete driver oracle whose liveness probe raises a request exception
that is not a ConnectionError, such as a read timeout. -/
def envX : Env := { frames := fun _ => true, probe := ReqOut.raiseOther, update := ReqOut.status 200 }

/-! ## Theorems -/

/-- C10: group_by_phash only has defined behavior in exact-match mode — with
exact_match set to False it returns no mapping at all (None), for every
record list and denylist. -/
theorem group_by_phash_non_exact_none :
    ∀ (entries : List Entry) (bl : List String),
      group_by_phash entries false bl = none := by
  intro entries bl
  rfl

/-- Helper for C4: every trace free of a vanish race is processed without
an escaping exception. -/
theorem remove_file_loop_isOk_of_no_vanish :
    ∀ trace : List FsStep, FsStep.unlinkGone ∉ trace →
      (remove_file_loop trace).isOk = true := by
  intro trace
  induction trace with
  | nil => intro _; rfl
  | cons s rest ih =>
      intro hmem
      have hs : s ≠ FsStep.unlinkGone := by
        intro h
        exact hmem (h ▸ List.mem_cons_self s rest)
      have hrest : FsStep.unlinkGone ∉ rest := fun h => hmem (List.mem_cons_of_mem s h)
      cases s with
      | gone => rfl
      | unlinkOk =>
          simp only [remove_file_loop]
          cases h : remove_file_loop rest with
          | ok evs => rfl
          | error e => rw [h] at ih; exact absurd (ih hrest) (by simp [Except.isOk, Except.toBool])
      | unlinkPerm =>
          simp only [remove_file_loop]
          cases h : remove_file_loop rest with
          | ok evs => rfl
          | error e => rw [h] at ih; exact absurd (ih hrest) (by simp [Except.isOk, Except.toBool])
      | unlinkGone => exact absurd rfl hs

/-- C4 counterexample: a path that exists at the initial check but vanishes
between the while-loop existence check and the unlink attempt makes
remove_file raise an uncaught FileNotFoundError, while the claim states that
such a call is a no-op raising no error. -/
theorem remove_file_vanish_race_raises :
    remove_file true [FsStep.unlinkGone] = Except.error PyErr.fileNotFound := by
  rfl

/-- C4 amended: remove_file is a no-op raising no error on a path absent at
the initial existence check; while the path exists, a permission failure is
caught, waits a fixed 1-unit backoff and retries, and such failures never
escalate to an escaping error; but when the path vanishes between a loop
existence check and the unlink attempt, the resulting FileNotFoundError
propagates uncaught. -/
theorem remove_file_amended :
    (∀ trace : List FsStep, remove_file false trace = Except.ok []) ∧
    (∀ (b : Bool) (trace : List FsStep), FsStep.unlinkGone ∉ trace →
      (remove_file b trace).isOk = true) ∧
    (∀ trace : List FsStep,
      remove_file_loop (FsStep.unlinkPerm :: trace) =
        (remove_file_loop trace).map (fun evs => RmEvt.slept 1 :: evs)) := by
  refine ⟨fun _ => rfl, ?_, fun _ => rfl⟩
  intro b trace hmem
  cases b with
  | false => rfl
  | true => exact remove_file_loop_isOk_of_no_vanish trace hmem

/-- C4 witness: a concrete trace with one caught permission failure followed
by a successful unlink completes without an escaping error. -/
theorem remove_file_amended_witness :
    (remove_file true [FsStep.unlinkPerm, FsStep.unlinkOk]).isOk = true :=
  remove_file_amended.2.1 true [FsStep.unlinkPerm, FsStep.unlinkOk] (by decide)

/-- Helper: one unfolding step of the find_biggest_file scan. -/
theorem fbf_scan_cons (prem : List Entry) (first e : Entry) (rest : List Entry) :
    fbf_scan prem first (e :: rest) =
      fbf_scan prem
        (if szv first < szv e then e
         else if szv e = szv first ∧ e ∈ prem then e else first) rest := rfl

/-- Helper for C2: on groups whose sizes are all present, the fallible
find_biggest_file loop agrees with the pure scan. -/
theorem fbf_loop_eq_scan :
    ∀ (prem rest : List Entry) (b : Entry),
      b.file_size.isSome = true → (∀ e ∈ rest, e.file_size.isSome = true) →
      fbf_loop prem (some b) rest = Except.ok (some (fbf_scan prem b rest)) := by
  intro prem rest
  induction rest with
  | nil => intro b _ _; rfl
  | cons e rest ih =>
      intro b hb hall
      obtain ⟨sb, hsb⟩ := Option.isSome_iff_exists.mp hb
      obtain ⟨se, hse⟩ := Option.isSome_iff_exists.mp (hall e (List.mem_cons_self e rest))
      have hall2 : ∀ x ∈ rest, x.file_size.isSome = true :=
        fun x hx => hall x (List.mem_cons_of_mem e hx)
      have hszb : szv b = sb := by simp [szv, hsb]
      have hsze : szv e = se := by simp [szv, hse]
      have he_some : e.file_size.isSome = true := hall e (List.mem_cons_self e rest)
      rw [fbf_scan_cons, hszb, hsze]
      simp only [fbf_loop, hse, hsb]
      by_cases h1 : sb < se
      · rw [if_pos h1, if_pos h1]
        exact ih e he_some hall2
      · rw [if_neg h1, if_neg h1]
        by_cases h2 : se = sb
        · rw [if_pos h2]
          by_cases h3 : e ∈ prem
          · rw [if_pos h3, if_pos ⟨h2, h3⟩]
            exact ih e he_some hall2
          · rw [if_neg h3, if_neg (fun hc => h3 hc.2)]
            exact ih b hb hall2
        · rw [if_neg h2, if_neg (fun hc => h2 hc.1)]
          exact ih b hb hall2

/-- Helper for C2: the pure scan yields a member of the group of maximal
size. -/
theorem fbf_scan_mem_max :
    ∀ (prem rest : List Entry) (b : Entry),
      fbf_scan prem b rest ∈ b :: rest ∧
      ∀ x ∈ b :: rest, szv x ≤ szv (fbf_scan prem b rest) := by
  intro prem rest
  induction rest with
  | nil =>
      intro b
      refine ⟨List.mem_cons_self b [], ?_⟩
      intro x hx
      rcases List.mem_cons.mp hx with rfl | h
      · exact le_refl _
      · exact absurd h (List.not_mem_nil x)
  | cons e rest ih =>
      intro b
      rw [fbf_scan_cons]
      obtain ⟨ihmem, ihmax⟩ :=
        ih (if szv b < szv e then e else if szv e = szv b ∧ e ∈ prem then e else b)
      have hstep_mem :
          (if szv b < szv e then e else if szv e = szv b ∧ e ∈ prem then e else b) = b ∨
          (if szv b < szv e then e else if szv e = szv b ∧ e ∈ prem then e else b) = e := by
        split_ifs with h1 h2
        · exact Or.inr rfl
        · exact Or.inr rfl
        · exact Or.inl rfl
      have hb_le : szv b ≤
          szv (if szv b < szv e then e else if szv e = szv b ∧ e ∈ prem then e else b) := by
        split_ifs with h1 h2
        · exact le_of_lt h1
        · exact le_of_eq h2.1.symm
        · exact le_refl _
      have he_le : szv e ≤
          szv (if szv b < szv e then e else if szv e = szv b ∧ e ∈ prem then e else b) := by
        split_ifs with h1 h2
        · exact le_refl _
        · exact le_refl _
        · omega
      constructor
      · rcases List.mem_cons.mp ihmem with hh | hh
        · rw [hh]
          rcases hstep_mem with h | h
          · rw [h]; exact List.mem_cons_self b (e :: rest)
          · rw [h]; exact List.mem_cons_of_mem b (List.mem_cons_self e rest)
        · exact List.mem_cons_of_mem b (List.mem_cons_of_mem e hh)
      · intro x hx
        have hstep_self := ihmax _ (List.mem_cons_self _ rest)
        rcases List.mem_cons.mp hx with rfl | hx2
        · exact le_trans hb_le hstep_self
        · rcases List.mem_cons.mp hx2 with rfl | hx3
          · exact le_trans he_le hstep_self
          · exact ihmax x (List.mem_cons_of_mem _ hx3)

/-- C2 counterexample: two distinct equal-size records P1 and P2, both
premium. The claim says the current best is replaced only when the
challenger is premium and the current best is not, so the first premium
record P1 should win; the code replaces on a tie whenever the challenger is
premium and returns the last one, P2. -/
theorem find_biggest_file_tie_counterexample :
    find_biggest_file [P1, P2] [P1, P2] = Except.ok (some P2) ∧
    fbf_scan_specTie [P1, P2] P1 [P2] = P1 ∧
    P1 ≠ P2 := by
  refine ⟨rfl, by decide, by decide⟩

/-- C2 amended: for every non-empty group whose sizes are present and every
premium classification, find_biggest_file returns a record of maximum
file_size, scanning once and replacing the current best exactly when the
challenger has strictly larger size, or has equal size and the challenger is
premium (regardless of the premium status of the current best) — so among
equal-size premium records the last encountered wins. -/
theorem find_biggest_file_amended :
    ∀ (first : Entry) (rest prem : List Entry),
      (∀ e ∈ first :: rest, e.file_size.isSome = true) →
      find_biggest_file (first :: rest) prem =
        Except.ok (some (fbf_scan prem first rest)) ∧
      fbf_scan prem first rest ∈ first :: rest ∧
      ∀ e ∈ first :: rest, szv e ≤ szv (fbf_scan prem first rest) := by
  intro first rest prem hall
  refine ⟨?_, (fbf_scan_mem_max prem rest first).1, (fbf_scan_mem_max prem rest first).2⟩
  show fbf_loop prem none (first :: rest) = _
  rw [show fbf_loop prem none (first :: rest) = fbf_loop prem (some first) rest from rfl]
  exact fbf_loop_eq_scan prem rest first (hall first (List.mem_cons_self _ _))
    (fun e he => hall e (List.mem_cons_of_mem _ he))

/-- C2 witness: the amended scan evaluated on the concrete tied premium
group. -/
theorem find_biggest_file_amended_witness :
    find_biggest_file [P1, P2] [P1, P2] =
      Except.ok (some (fbf_scan [P1, P2] P1 [P2])) :=
  (find_biggest_file_amended P1 [P2] [P1, P2] (by decide)).1

/-- Helper for C5: lookup after a bucket insertion. -/
theorem alookup_gbp_insert :
    ∀ (acc : List (String × List Entry)) (k : String) (e : Entry) (h : String),
      alookup h (gbp_insert acc k e) =
        if h = k then some ((alookup k acc).getD [] ++ [e]) else alookup h acc := by
  intro acc k e
  induction acc with
  | nil =>
      intro h
      by_cases hk : h = k
      · subst hk; simp [gbp_insert, alookup]
      · have hk2 : ¬k = h := fun hc => hk hc.symm
        simp [gbp_insert, alookup, hk, hk2]
  | cons g rest ih =>
      intro h
      obtain ⟨k1, b1⟩ := g
      by_cases hk1 : k1 = k
      · subst hk1
        by_cases hk : h = k1
        · subst hk; simp [gbp_insert, alookup]
        · have hk2 : ¬k1 = h := fun hc => hk hc.symm
          simp [gbp_insert, alookup, hk, hk2]
      · by_cases hk : h = k
        · subst hk
          have hne : ¬k1 = h := fun hc => hk1 hc
          simp [gbp_insert, alookup, hk1, hne, ih]
        · by_cases hh1 : k1 = h
          · subst hh1
            simp [gbp_insert, alookup, hk1, hk]
          · simp [gbp_insert, alookup, hk1, hk, hh1, ih]

/-- Helper for C5: keys after a bucket insertion. -/
theorem akeys_gbp_insert :
    ∀ (acc : List (String × List Entry)) (k : String) (e : Entry),
      akeys (gbp_insert acc k e) =
        if k ∈ akeys acc then akeys acc else akeys acc ++ [k] := by
  intro acc k e
  induction acc with
  | nil => simp [gbp_insert, akeys]
  | cons g rest ih =>
      obtain ⟨k1, b1⟩ := g
      by_cases hk1 : k1 = k
      · subst hk1; simp [gbp_insert, akeys]
      · have hne : ¬k = k1 := fun hc => hk1 hc.symm
        simp only [gbp_insert, if_neg hk1, akeys, List.map_cons] at ih ⊢
        rw [ih]
        by_cases hmem : k ∈ List.map Prod.fst rest
        · simp [hmem, hne]
        · simp [hmem, hne]

/-- Helper for C5: bucket insertion preserves distinctness of the keys. -/
theorem akeys_nodup_gbp_insert :
    ∀ (acc : List (String × List Entry)) (k : String) (e : Entry),
      (akeys acc).Nodup → (akeys (gbp_insert acc k e)).Nodup := by
  intro acc k e hnd
  rw [akeys_gbp_insert]
  by_cases hmem : k ∈ akeys acc
  · simpa [hmem] using hnd
  · simp only [hmem, if_false]
    rw [List.nodup_append]
    refine ⟨hnd, List.nodup_singleton k, ?_⟩
    intro a ha hc
    rw [List.mem_singleton] at hc
    exact hmem (hc ▸ ha)

/-- Helper for C5: the grouping fold keeps the bucket keys distinct. -/
theorem akeys_nodup_gbp_fold :
    ∀ (bl : List String) (l : List Entry) (acc : List (String × List Entry)),
      (akeys acc).Nodup → (akeys (gbp_fold bl l acc)).Nodup := by
  intro bl l
  induction l with
  | nil => intro acc h; exact h
  | cons e rest ih =>
      intro acc h
      by_cases hbl : e.phash ∈ bl
      · simpa [gbp_fold, hbl] using ih acc h
      · simpa [gbp_fold, hbl] using ih (gbp_insert acc e.phash e) (akeys_nodup_gbp_insert acc e.phash e h)

/-- Helper for C5: what each bucket of the grouping fold looks up to, as the
join of the bucket already accumulated and the matching suffix entries. -/
theorem alookup_gbp_fold :
    ∀ (bl : List String) (l : List Entry) (acc : List (String × List Entry)) (h : String),
      alookup h (gbp_fold bl l acc) =
        bucketJoin (alookup h acc)
          (l.filter (fun e => decide (e.phash = h ∧ e.phash ∉ bl))) := by
  intro bl l
  induction l with
  | nil =>
      intro acc h
      cases halk : alookup h acc <;> simp [gbp_fold, bucketJoin, halk]
  | cons e rest ih =>
      intro acc h
      by_cases hbl : e.phash ∈ bl
      · have hstep : gbp_fold bl (e :: rest) acc = gbp_fold bl rest acc := by
          simp [gbp_fold, hbl]
        have hpred : decide (e.phash = h ∧ e.phash ∉ bl) = false := by
          simp [hbl]
        rw [hstep, List.filter_cons]
        simp only [hpred, if_neg Bool.false_ne_true]
        exact ih acc h
      · have hstep : gbp_fold bl (e :: rest) acc =
            gbp_fold bl rest (gbp_insert acc e.phash e) := by
          simp [gbp_fold, hbl]
        by_cases hph : e.phash = h
        · have hbl2 : h ∉ bl := hph ▸ hbl
          have hpred : decide (e.phash = h ∧ e.phash ∉ bl) = true := by
            simp [hph, hbl2]
          rw [hstep, List.filter_cons]
          simp only [hpred, if_pos]
          rw [ih (gbp_insert acc e.phash e) h]
          rw [alookup_gbp_insert acc e.phash e h, if_pos hph.symm, hph]
          cases halk : alookup h acc <;>
            simp [bucketJoin, halk, List.append_assoc]
        · have hpred : decide (e.phash = h ∧ e.phash ∉ bl) = false := by
            simp [hph]
          rw [hstep, List.filter_cons]
          simp only [hpred, if_neg Bool.false_ne_true]
          rw [ih (gbp_insert acc e.phash e) h]
          rw [alookup_gbp_insert acc e.phash e h,
            if_neg (fun hc : h = e.phash => hph hc.symm)]

/-- Helper for C5: over distinct keys, association membership coincides with
lookup. -/
theorem mem_iff_alookup :
    ∀ (gs : List (String × List Entry)), (akeys gs).Nodup →
      ∀ (h : String) (grp : List Entry), ((h, grp) ∈ gs ↔ alookup h gs = some grp) := by
  intro gs
  induction gs with
  | nil => intro _ h grp; simp [alookup]
  | cons g rest ih =>
      intro hnd h grp
      obtain ⟨k, b⟩ := g
      have hk_not : k ∉ akeys rest := by
        have := hnd
        rw [show akeys ((k, b) :: rest) = k :: akeys rest from rfl, List.nodup_cons] at this
        exact this.1
      have hrest_nd : (akeys rest).Nodup := by
        have := hnd
        rw [show akeys ((k, b) :: rest) = k :: akeys rest from rfl, List.nodup_cons] at this
        exact this.2
      by_cases hk : k = h
      · subst hk
        constructor
        · intro hmem
          rcases List.mem_cons.mp hmem with heq | hmem2
          · have hgb : grp = b := ((Prod.mk.injEq _ _ _ _).mp heq).2
            rw [hgb]
            simp [alookup]
          · exact absurd (List.mem_map_of_mem Prod.fst hmem2) (by simpa [akeys] using hk_not)
        · intro heq
          have hbg : b = grp := by simpa [alookup] using heq
          exact List.mem_cons.mpr (Or.inl (by rw [hbg]))
      · simp only [alookup, if_neg hk, List.mem_cons]
        rw [← ih hrest_nd h grp]
        constructor
        · intro hmem
          rcases hmem with heq | hmem2
          · exact absurd ((Prod.mk.injEq _ _ _ _).mp heq).1.symm hk
          · exact hmem2
        · exact fun hmem => Or.inr hmem

/-- C5: group_by_phash with the default exact-match mode yields a partition:
a bucket for key h exists exactly when h is not denylisted and some entry
carries it, the bucket holds precisely the entries whose perceptualHash
equals h in encounter order, and entries with denylisted hashes appear in no
bucket. -/
theorem group_by_phash_partition :
    ∀ (entries : List Entry) (bl : List String),
      group_by_phash entries true bl = some (gbp_fold bl entries []) ∧
      ∀ (h : String) (grp : List Entry),
        ((h, grp) ∈ gbp_fold bl entries [] ↔
          h ∉ bl ∧ grp ≠ [] ∧ grp = entries.filter (fun e => decide (e.phash = h))) := by
  intro entries bl
  refine ⟨rfl, ?_⟩
  intro h grp
  have hnd : (akeys (gbp_fold bl entries [])).Nodup :=
    akeys_nodup_gbp_fold bl entries [] (by simp [akeys])
  rw [mem_iff_alookup _ hnd h grp, alookup_gbp_fold bl entries [] h]
  show bucketJoin none _ = some grp ↔ _
  simp only [bucketJoin]
  by_cases hf : entries.filter (fun e => decide (e.phash = h ∧ e.phash ∉ bl)) = []
  · rw [if_pos hf]
    constructor
    · intro hc; exact absurd hc (by simp)
    · rintro ⟨hbl, hne, heq⟩
      have hcong : entries.filter (fun e => decide (e.phash = h ∧ e.phash ∉ bl)) =
          entries.filter (fun e => decide (e.phash = h)) := by
        apply List.filter_congr
        intro a _
        by_cases hph : a.phash = h
        · simp [hph, hbl]
        · simp [hph]
      have hB : entries.filter (fun e => decide (e.phash = h)) = [] := by
        rw [← hcong]; exact hf
      exact absurd (heq.trans hB) hne
  · rw [if_neg hf]
    have hbl : h ∉ bl := by
      rcases hf2 : entries.filter (fun e => decide (e.phash = h ∧ e.phash ∉ bl)) with
        _ | ⟨e, tail⟩
      · exact absurd hf2 hf
      · have hmem : e ∈ entries.filter (fun e => decide (e.phash = h ∧ e.phash ∉ bl)) := by
          rw [hf2]; exact List.mem_cons_self e tail
        have hp := of_decide_eq_true ((List.mem_filter.mp hmem).2)
        exact hp.1 ▸ hp.2
    have hcong : entries.filter (fun e => decide (e.phash = h ∧ e.phash ∉ bl)) =
        entries.filter (fun e => decide (e.phash = h)) := by
      apply List.filter_congr
      intro a _
      by_cases hph : a.phash = h
      · simp [hph, hbl]
      · simp [hph]
    rw [hcong] at hf ⊢
    constructor
    · intro hsome
      exact ⟨hbl, by rw [← Option.some_inj.mp hsome]; exact hf,
        (Option.some_inj.mp hsome).symm⟩
    · rintro ⟨_, _, heq⟩
      rw [heq]

/-- C5 witness: a concrete non-denylisted entry lands in the bucket of its
own hash. -/
theorem group_by_phash_partition_witness :
    ("h1", [entryW]) ∈ gbp_fold ["bad"] [entryW] [] :=
  ((group_by_phash_partition [entryW] ["bad"]).2 "h1" [entryW]).mpr (by decide)

/-- Helper: bind on a successful Except value. -/
theorem except_bind_ok {α β : Type} (x : α) (k : α → Except PyErr β) :
    (Except.ok x >>= k) = k x := rfl

/-- Helper: bind on a failed Except value. -/
theorem except_bind_err {α β : Type} (e : PyErr) (k : α → Except PyErr β) :
    ((Except.error e : Except PyErr α) >>= k) = Except.error e := rfl

/-- Helper: bind after a pure Except value. -/
theorem except_pure_bind {α β : Type} (x : α) (k : α → Except PyErr β) :
    ((pure x : Except PyErr α) >>= k) = k x := rfl

/-- Helper for C6: a group with all sizes present sums without error. -/
theorem sumSizes_isOk_of_all_some :
    ∀ g : List Entry, (∀ e ∈ g, e.file_size.isSome = true) →
      ∃ s, sumSizes g = Except.ok s := by
  intro g
  induction g with
  | nil => exact fun _ => ⟨0, rfl⟩
  | cons e rest ih =>
      intro h
      obtain ⟨se, hse⟩ := Option.isSome_iff_exists.mp (h e (List.mem_cons_self e rest))
      obtain ⟨s, hs⟩ := ih (fun x hx => h x (List.mem_cons_of_mem e hx))
      exact ⟨se + s, by simp [sumSizes, hse, hs, Except.map]⟩

/-- Helper for C6: a group with all durations present sums without error. -/
theorem sumDurations_isOk_of_all_some :
    ∀ g : List Entry, (∀ e ∈ g, e.duration.isSome = true) →
      ∃ d, sumDurations g = Except.ok d := by
  intro g
  induction g with
  | nil => exact fun _ => ⟨0, rfl⟩
  | cons e rest ih =>
      intro h
      obtain ⟨de, hde⟩ := Option.isSome_iff_exists.mp (h e (List.mem_cons_self e rest))
      obtain ⟨d, hd⟩ := ih (fun x hx => h x (List.mem_cons_of_mem e hx))
      exact ⟨de + d, by simp [sumDurations, hde, hd, Except.map]⟩

/-- Helper for C8: one member with a missing file_size makes the python sum
raise TypeError. -/
theorem sumSizes_error_of_mem_none :
    ∀ (g : List Entry) (e : Entry), e ∈ g → e.file_size = none →
      sumSizes g = Except.error PyErr.typeError := by
  intro g
  induction g with
  | nil => intro e he _; exact absurd he (List.not_mem_nil e)
  | cons x rest ih =>
      intro e he hnone
      rcases List.mem_cons.mp he with rfl | hrest
      · simp [sumSizes, hnone]
      · cases hx : x.file_size with
        | none => simp [sumSizes, hx]
        | some s => simp [sumSizes, hx, ih e hrest hnone, Except.map]

/-- Helper for C6: with every group sum succeeding, the size comprehension
is the corresponding pure filter. -/
theorem filterBySumSize_ok :
    ∀ (m : Int) (l : List (String × List Entry)),
      (∀ g ∈ l, ∃ s, sumSizes g.2 = Except.ok s) →
      filterBySumSize m l = Except.ok (l.filter (fun g => sizeOkB m g.2)) := by
  intro m l
  induction l with
  | nil => intro _; rfl
  | cons g rest ih =>
      intro h
      obtain ⟨s, hs⟩ := h g (List.mem_cons_self g rest)
      have hrest := ih (fun x hx => h x (List.mem_cons_of_mem g hx))
      have hsz : sizeOkB m g.2 = decide (m ≤ s) := by simp [sizeOkB, hs]
      by_cases hms : m ≤ s
      · simp [filterBySumSize, hs, hrest, List.filter_cons, hsz, hms, except_bind_ok]
      · simp [filterBySumSize, hs, hrest, List.filter_cons, hsz, hms, except_bind_ok]

/-- Helper for C6: with every group sum succeeding, the duration
comprehension is the corresponding pure filter. -/
theorem filterBySumDuration_ok :
    ∀ (m : Int) (l : List (String × List Entry)),
      (∀ g ∈ l, ∃ d, sumDurations g.2 = Except.ok d) →
      filterBySumDuration m l = Except.ok (l.filter (fun g => durOkB m g.2)) := by
  intro m l
  induction l with
  | nil => intro _; rfl
  | cons g rest ih =>
      intro h
      obtain ⟨d, hd⟩ := h g (List.mem_cons_self g rest)
      have hrest := ih (fun x hx => h x (List.mem_cons_of_mem g hx))
      have hdz : durOkB m g.2 = decide (m ≤ pyRound d) := by simp [durOkB, hd]
      by_cases hmd : m ≤ pyRound d
      · simp [filterBySumDuration, hd, hrest, List.filter_cons, hdz, hmd, except_bind_ok]
      · simp [filterBySumDuration, hd, hrest, List.filter_cons, hdz, hmd, except_bind_ok]

/-- Helper for C8: the size sum only ever fails with TypeError. -/
theorem sumSizes_error_eq :
    ∀ (g : List Entry) (e : PyErr), sumSizes g = Except.error e →
      e = PyErr.typeError := by
  intro g
  induction g with
  | nil => intro e h; exact absurd h (by simp [sumSizes])
  | cons x rest ih =>
      intro e h
      cases hx : x.file_size with
      | none =>
          rw [sumSizes, hx] at h
          exact (Except.error.injEq _ _ |>.mp h).symm
      | some s =>
          rw [sumSizes, hx] at h
          cases hr : sumSizes rest with
          | ok t => rw [hr] at h; exact absurd h (by simp [Except.map])
          | error e2 =>
              rw [hr] at h
              have he2 : e2 = e := by
                simpa [Except.map] using h
              exact he2 ▸ ih e2 hr

/-- Helper for C8: one failing group sum aborts the whole size
comprehension. -/
theorem filterBySumSize_error :
    ∀ (m : Int) (l : List (String × List Entry)) (g : String × List Entry),
      g ∈ l → sumSizes g.2 = Except.error PyErr.typeError →
      filterBySumSize m l = Except.error PyErr.typeError := by
  intro m l
  induction l with
  | nil => intro g hg _; exact absurd hg (List.not_mem_nil g)
  | cons x rest ih =>
      intro g hg herr
      rcases List.mem_cons.mp hg with rfl | hrest
      · simp [filterBySumSize, herr, except_bind_err]
      · cases hx : sumSizes x.2 with
        | ok s =>
            simp [filterBySumSize, hx, ih g hrest herr, except_bind_ok, except_bind_err]
        | error e =>
            have : e = PyErr.typeError := sumSizes_error_eq x.2 e hx
            subst this
            simp [filterBySumSize, hx, except_bind_err]

/-- Helper for C6: what membership in the third curation stage says about
the input groups. -/
theorem mem_stage3 :
    ∀ (fs : String → Bool) (gs : List (String × List Entry)) (g : String × List Entry),
      g ∈ (((gs.filter (fun g => 1 < g.2.length)).map
          (fun g => (g.1, g.2.filter (fun e => fs e.file_path)))).filter
          (fun g => 1 < g.2.length)) →
      ∃ g0, (g.1, g0) ∈ gs ∧ 1 < g0.length ∧
        g.2 = g0.filter (fun e => fs e.file_path) ∧ 1 < g.2.length := by
  intro fs gs g hg
  have h3 := List.mem_filter.mp hg
  obtain ⟨a, ha1, ha2⟩ := List.mem_map.mp h3.1
  have h1 := List.mem_filter.mp ha1
  have hfst : g.1 = a.1 := by rw [← ha2]
  have hsnd : g.2 = a.2.filter (fun e => fs e.file_path) := by rw [← ha2]
  refine ⟨a.2, ?_, of_decide_eq_true h1.2, hsnd, of_decide_eq_true h3.2⟩
  rw [hfst]
  simpa using h1.1

/-- C6: get_curated_grouped_entries applies, in order, the drop of groups
with fewer than two members, the drop of members whose path does not exist,
the re-drop of groups that fell below two members, and the optional
aggregate size and duration threshold filters, so on groups whose needed
numeric fields are present it succeeds with exactly that pure pipeline, a
result that is a subset of the input in group count and in per-group
membership. -/
theorem get_curated_grouped_entries_pipeline :
    ∀ (fs : String → Bool) (gs : List (String × List Entry)) (ms md : Option Int),
      (∀ g ∈ gs, ∀ e ∈ g.2,
        (ms.isSome = true → e.file_size.isSome = true) ∧
        (md.isSome = true → e.duration.isSome = true)) →
      get_curated_grouped_entries fs gs ms md = Except.ok (curatedPure fs gs ms md) ∧
      (curatedPure fs gs ms md).length ≤ gs.length ∧
      (∀ g ∈ curatedPure fs gs ms md, ∃ g0,
        (g.1, g0) ∈ gs ∧ 1 < g0.length ∧
        g.2 = g0.filter (fun e => fs e.file_path) ∧ 1 < g.2.length ∧
        (∀ m, ms = some m → sizeOkB m g.2 = true) ∧
        (∀ m, md = some m → durOkB m g.2 = true)) := by
  intro fs gs ms md hpres
  have hlen3 :
      ((((gs.filter (fun g => 1 < g.2.length)).map
        (fun g => (g.1, g.2.filter (fun e => fs e.file_path)))).filter
        (fun g => 1 < g.2.length))).length ≤ gs.length := by
    calc (((gs.filter (fun g => 1 < g.2.length)).map
          (fun g => (g.1, g.2.filter (fun e => fs e.file_path)))).filter
          (fun g => 1 < g.2.length)).length
        ≤ ((gs.filter (fun g => 1 < g.2.length)).map
          (fun g => (g.1, g.2.filter (fun e => fs e.file_path)))).length :=
          List.length_filter_le _ _
      _ = (gs.filter (fun g => 1 < g.2.length)).length := List.length_map _ _
      _ ≤ gs.length := List.length_filter_le _ _
  have hsum_sz : ∀ m : Int, ms = some m →
      ∀ g ∈ (((gs.filter (fun g => 1 < g.2.length)).map
        (fun g => (g.1, g.2.filter (fun e => fs e.file_path)))).filter
        (fun g => 1 < g.2.length)),
      ∃ s, sumSizes g.2 = Except.ok s := by
    intro m hms g hg
    obtain ⟨g0, hg0, _, heq, _⟩ := mem_stage3 fs gs g hg
    apply sumSizes_isOk_of_all_some
    intro e he
    rw [heq] at he
    exact (hpres (g.1, g0) hg0 e (List.mem_of_mem_filter he)).1 (by rw [hms]; rfl)
  have hsum_du : ∀ m : Int, md = some m →
      ∀ g ∈ (((gs.filter (fun g => 1 < g.2.length)).map
        (fun g => (g.1, g.2.filter (fun e => fs e.file_path)))).filter
        (fun g => 1 < g.2.length)),
      ∃ d, sumDurations g.2 = Except.ok d := by
    intro m hmd g hg
    obtain ⟨g0, hg0, _, heq, _⟩ := mem_stage3 fs gs g hg
    apply sumDurations_isOk_of_all_some
    intro e he
    rw [heq] at he
    exact (hpres (g.1, g0) hg0 e (List.mem_of_mem_filter he)).2 (by rw [hmd]; rfl)
  rcases ms with _ | m1
  · rcases md with _ | m2
    · refine ⟨rfl, by simpa [curatedPure] using hlen3, ?_⟩
      intro g hg
      obtain ⟨g0, hg0, hlen0, heq, hlen⟩ := mem_stage3 fs gs g (by simpa [curatedPure] using hg)
      exact ⟨g0, hg0, hlen0, heq, hlen,
        fun m hm => absurd hm (by simp), fun m hm => absurd hm (by simp)⟩
    · have hdur := filterBySumDuration_ok m2 _ (hsum_du m2 rfl)
      constructor
      · show (pure _ >>= fun c4 => filterBySumDuration m2 c4) = _
        rw [except_pure_bind, hdur]
        rfl
      constructor
      · calc (curatedPure fs gs none (some m2)).length
            ≤ (((gs.filter (fun g => 1 < g.2.length)).map
              (fun g => (g.1, g.2.filter (fun e => fs e.file_path)))).filter
              (fun g => 1 < g.2.length)).length := List.length_filter_le _ _
          _ ≤ gs.length := hlen3
      · intro g hg
        have hg2 := List.mem_filter.mp (show g ∈ _ from hg)
        obtain ⟨g0, hg0, hlen0, heq, hlen⟩ := mem_stage3 fs gs g hg2.1
        exact ⟨g0, hg0, hlen0, heq, hlen,
          fun m hm => absurd hm (by simp),
          fun m hm => by rw [← Option.some_inj.mp hm]; exact hg2.2⟩
  · have hsz := filterBySumSize_ok m1 _ (hsum_sz m1 rfl)
    rcases md with _ | m2
    · constructor
      · show (filterBySumSize m1 _ >>= fun c4 => pure c4) = _
        rw [hsz, except_bind_ok]
        rfl
      constructor
      · calc (curatedPure fs gs (some m1) none).length
            ≤ (((gs.filter (fun g => 1 < g.2.length)).map
              (fun g => (g.1, g.2.filter (fun e => fs e.file_path)))).filter
              (fun g => 1 < g.2.length)).length := List.length_filter_le _ _
          _ ≤ gs.length := hlen3
      · intro g hg
        have hg2 := List.mem_filter.mp (show g ∈ _ from hg)
        obtain ⟨g0, hg0, hlen0, heq, hlen⟩ := mem_stage3 fs gs g hg2.1
        exact ⟨g0, hg0, hlen0, heq, hlen,
          fun m hm => by rw [← Option.some_inj.mp hm]; exact hg2.2,
          fun m hm => absurd hm (by simp)⟩
    · have hsum_du2 : ∀ g ∈ ((((gs.filter (fun g => 1 < g.2.length)).map
          (fun g => (g.1, g.2.filter (fun e => fs e.file_path)))).filter
          (fun g => 1 < g.2.length)).filter (fun g => sizeOkB m1 g.2)),
          ∃ d, sumDurations g.2 = Except.ok d :=
        fun g hg => hsum_du m2 rfl g (List.mem_of_mem_filter hg)
      have hdur := filterBySumDuration_ok m2 _ hsum_du2
      constructor
      · show (filterBySumSize m1 _ >>= fun c4 => filterBySumDuration m2 c4) = _
        rw [hsz, except_bind_ok, hdur]
        rfl
      constructor
      · calc (curatedPure fs gs (some m1) (some m2)).length
            ≤ ((((gs.filter (fun g => 1 < g.2.length)).map
              (fun g => (g.1, g.2.filter (fun e => fs e.file_path)))).filter
              (fun g => 1 < g.2.length)).filter (fun g => sizeOkB m1 g.2)).length :=
              List.length_filter_le _ _
          _ ≤ (((gs.filter (fun g => 1 < g.2.length)).map
              (fun g => (g.1, g.2.filter (fun e => fs e.file_path)))).filter
              (fun g => 1 < g.2.length)).length := List.length_filter_le _ _
          _ ≤ gs.length := hlen3
      · intro g hg
        have hgd := List.mem_filter.mp (show g ∈ _ from hg)
        have hgs := List.mem_filter.mp hgd.1
        obtain ⟨g0, hg0, hlen0, heq, hlen⟩ := mem_stage3 fs gs g hgs.1
        exact ⟨g0, hg0, hlen0, heq, hlen,
          fun m hm => by rw [← Option.some_inj.mp hm]; exact hgs.2,
          fun m hm => by rw [← Option.some_inj.mp hm]; exact hgd.2⟩

/-- C6 witness: the pipeline evaluated on a concrete two-member group with
both thresholds supplied. -/
theorem get_curated_grouped_entries_pipeline_witness :
    get_curated_grouped_entries (fun _ => true) [("hW", [eA, eB])] (some 1) (some 1) =
      Except.ok (curatedPure (fun _ => true) [("hW", [eA, eB])] (some 1) (some 1)) :=
  (get_curated_grouped_entries_pipeline (fun _ => true) [("hW", [eA, eB])]
    (some 1) (some 1) (by decide)).1

/-- C8 counterexample: a two-member group whose paths exist and where one
member has a missing file_size. The claim says the aggregate-size filter
excludes the group rather than raising an error; the code instead raises a
TypeError from summing None with an integer, so curation produces no result
at all. -/
theorem curate_missing_size_raises :
    get_curated_grouped_entries (fun _ => true) [("h8", [rA, rB])] (some 1) none =
      Except.error PyErr.typeError := rfl

/-- C8 amended: row normalization does map every absent or empty column
value to the explicit missing marker and keeps every other value unchanged
(so missing numerics are never read as zero); but when minAggregateSize is
given and a group that survives the size-2 and existence filters contains a
record with missing sizeBytes, the aggregate-sum filter of curate raises a
TypeError that propagates, instead of excluding that group. -/
theorem missing_marker_amended :
    (∀ v : Cell, (v = Cell.null ∨ v = Cell.str "") → normalizeCell v = Cell.null) ∧
    (∀ v : Cell, ¬(v = Cell.null ∨ v = Cell.str "") → normalizeCell v = v) ∧
    (∀ (fs : String → Bool) (gs : List (String × List Entry)) (m : Int)
       (md : Option Int) (h : String) (g0 : List Entry),
      (h, g0) ∈ gs → 1 < g0.length →
      1 < (g0.filter (fun e => fs e.file_path)).length →
      (∃ e ∈ g0.filter (fun e => fs e.file_path), e.file_size = none) →
      get_curated_grouped_entries fs gs (some m) md = Except.error PyErr.typeError) := by
  refine ⟨?_, ?_, ?_⟩
  · intro v hv
    simp [normalizeCell, hv]
  · intro v hv
    simp [normalizeCell, hv]
  · intro fs gs m md h g0 hmem hlen0 hlenf ⟨e, he, hnone⟩
    have hmem1 : (h, g0) ∈ gs.filter (fun g => 1 < g.2.length) :=
      List.mem_filter.mpr ⟨hmem, decide_eq_true hlen0⟩
    have hmem2 : (h, g0.filter (fun e => fs e.file_path)) ∈
        (gs.filter (fun g => 1 < g.2.length)).map
          (fun g => (g.1, g.2.filter (fun e => fs e.file_path))) :=
      List.mem_map.mpr ⟨(h, g0), hmem1, rfl⟩
    have hmem3 : (h, g0.filter (fun e => fs e.file_path)) ∈
        ((gs.filter (fun g => 1 < g.2.length)).map
          (fun g => (g.1, g.2.filter (fun e => fs e.file_path)))).filter
          (fun g => 1 < g.2.length) :=
      List.mem_filter.mpr ⟨hmem2, decide_eq_true hlenf⟩
    have herr : sumSizes (g0.filter (fun e => fs e.file_path)) =
        Except.error PyErr.typeError :=
      sumSizes_error_of_mem_none _ e he hnone
    have hfilt := filterBySumSize_error m _ _ hmem3 herr
    show (filterBySumSize m _ >>= _) = _
    rw [hfilt, except_bind_err]

/-- C8 witness: the amended raising behavior evaluated at a second concrete
group with both thresholds supplied. -/
theorem missing_marker_amended_witness :
    get_curated_grouped_entries (fun _ => true) [("h9", [rA, rB])] (some 3) (some 2) =
      Except.error PyErr.typeError :=
  missing_marker_amended.2.2 (fun _ => true) [("h9", [rA, rB])] 3 (some 2) "h9" [rA, rB]
    (by decide) (by decide) (by decide) ⟨rA, by decide, rfl⟩

/-- C3 counterexample: two video frames of different spatial dimensions,
compared with a concrete resize oracle. The embedded code, which resizes the
first frame to the second frame's dimensions, rejects the pair; the
comparator built the way the claim states it, resizing the second frame to
the first frame's dimensions and leaving the first frame unchanged, accepts
it. So the claim mis-states which frame is resized. -/
theorem resize_direction_counterexample :
    is_frames_match cfg0 [pA, pB] = (false, []) ∧
    is_video_frames_match_specResize cfg0 [pA, pB] = (true, []) := by
  constructor
  · decide
  · decide

/-- C3 amended: in both the video and image comparators, when the two decoded
frames differ in spatial dimensions, it is the first frame that is resized to
the second frame's spatial dimensions (the second frame is left unchanged)
before the mean-squared-error comparison. -/
theorem resize_direction_amended :
    ∀ (cfg : CvConfig) (p q : MediaPath) (f1 f2 : Frame),
      f1.shape ≠ f2.shape →
      (p.firstFrame = some f1 → q.firstFrame = some f2 →
        is_video_frames_match cfg [p, q] =
          (if (cfg.resize f1 f2.h f2.w).shape = f2.shape then
            (decide (mseVal (cfg.resize f1 f2.h f2.w) f2 ≤ cfg.mse_video_threshold),
              ([] : List String))
          else (false, ["An error occurred"]))) ∧
      (p.imageData = some f1 → q.imageData = some f2 →
        is_image_frames_match cfg [p, q] =
          (if (cfg.resize f1 f2.h f2.w).shape = f2.shape then
            (decide (mseVal (cfg.resize f1 f2.h f2.w) f2 ≤ cfg.mse_image_threshold),
              ([] : List String))
          else (false, ["An error occurred"]))) := by
  intro cfg p q f1 f2 hsh
  constructor
  · intro hp hq
    simp only [is_video_frames_match, framesLoop, hp, hq]
    rw [if_pos hsh]
    by_cases hres : (cfg.resize f1 f2.h f2.w).shape = f2.shape
    · rw [if_pos hres, if_pos hres]
      by_cases hlt : cfg.mse_video_threshold < mseVal (cfg.resize f1 f2.h f2.w) f2
      · rw [if_pos hlt]
        simp [decide_eq_false (not_le.mpr hlt)]
      · rw [if_neg hlt]
        simp [framesLoop, decide_eq_true (not_lt.mp hlt)]
    · rw [if_neg hres, if_neg hres]
  · intro hp hq
    simp only [is_image_frames_match, framesLoop, hp, hq]
    rw [if_pos hsh]
    by_cases hres : (cfg.resize f1 f2.h f2.w).shape = f2.shape
    · rw [if_pos hres, if_pos hres]
      by_cases hlt : cfg.mse_image_threshold < mseVal (cfg.resize f1 f2.h f2.w) f2
      · rw [if_pos hlt]
        simp [decide_eq_false (not_le.mpr hlt)]
      · rw [if_neg hlt]
        simp [framesLoop, decide_eq_true (not_lt.mp hlt)]
    · rw [if_neg hres, if_neg hres]

/-- C3 witness: the amended resize direction evaluated on the concrete
frame pair. -/
theorem resize_direction_amended_witness :
    is_video_frames_match cfg0 [pA, pB] = (false, []) := by
  have h := (resize_direction_amended cfg0 pA pB fz1 fz2 (by decide)).1 rfl rfl
  rw [h]
  decide

/-- C7 counterexample: a path that opens as a video stream but yields no
readable frame and does not decode as an image. Under the claim's
classification this single-path list is neither all-video nor all-image, so
the call should return false and report an unsupported input type; the code
classifies on openability alone, runs the video comparator, and returns true
with no report. -/
theorem video_classification_counterexample :
    is_frames_match cfg0 [p0] = (true, []) ∧ p0.opensAsVideo = true ∧
    p0.firstFrame = none ∧ is_image p0 = false :=
  ⟨rfl, rfl, rfl, rfl⟩

/-- C7 amended: a path counts as video exactly when it can be opened as a
video stream (no frame-read requirement); whenever the paths are neither
all-video nor all-image under that classification, is_frames_match returns
false and reports an unsupported input type without raising. -/
theorem unsupported_mix_amended :
    (∀ (cfg : CvConfig) (paths : List MediaPath),
      paths.all is_video = false → paths.all is_image = false →
      is_frames_match cfg paths = (false, ["Unsupported input type"])) ∧
    (∀ p : MediaPath, is_video p = p.opensAsVideo) := by
  constructor
  · intro cfg paths hv hi
    simp [is_frames_match, hv, hi]
  · intro p
    rfl

/-- C7 witness: the unsupported branch evaluated on a concrete path that is
neither video nor image. -/
theorem unsupported_mix_amended_witness :
    is_frames_match cfg0 [pNone] = (false, ["Unsupported input type"]) :=
  unsupported_mix_amended.1 cfg0 [pNone] rfl rfl

/-- Helper for C1: the premium separation loop partitions into the two
order-preserving filters. -/
theorem separate_eq_filters :
    ∀ l : List Entry,
      separate_premium_and_non_premium_files l =
        (l.filter isPremium, l.filter (fun e => !(isPremium e))) := by
  intro l
  induction l with
  | nil => rfl
  | cons e rest ih =>
      by_cases hp : isPremium e = true
      · simp [separate_premium_and_non_premium_files, ih, List.filter_cons, hp]
      · simp [separate_premium_and_non_premium_files, ih, List.filter_cons, hp]

/-- Helper for C1: stable descending insertion is a permutation. -/
theorem insertBySizeDesc_perm :
    ∀ (l : List Entry) (e : Entry), (insertBySizeDesc e l).Perm (e :: l) := by
  intro l e
  induction l with
  | nil => exact List.Perm.refl _
  | cons x xs ih =>
      by_cases h : szv x ≤ szv e
      · simp only [insertBySizeDesc, if_pos h]
        exact List.Perm.refl _
      · simp only [insertBySizeDesc, if_neg h]
        exact (ih.cons x).trans (List.Perm.swap e x xs)

/-- Helper for C1: the stable descending sort is a permutation. -/
theorem sortDescBySize_perm :
    ∀ l : List Entry, (sortDescBySize l).Perm l := by
  intro l
  induction l with
  | nil => exact List.Perm.refl _
  | cons e rest ih =>
      exact (insertBySizeDesc_perm (sortDescBySize rest) e).trans (ih.cons e)

/-- Helper for C1: stable descending insertion keeps the list sorted by
descending file_size. -/
theorem insertBySizeDesc_pairwise :
    ∀ (l : List Entry) (e : Entry),
      List.Pairwise (fun a b => szv b ≤ szv a) l →
      List.Pairwise (fun a b => szv b ≤ szv a) (insertBySizeDesc e l) := by
  intro l e
  induction l with
  | nil => intro _; exact List.pairwise_singleton _ _
  | cons x xs ih =>
      intro hp
      rw [List.pairwise_cons] at hp
      obtain ⟨hx, hxs⟩ := hp
      by_cases h : szv x ≤ szv e
      · simp only [insertBySizeDesc, if_pos h]
        rw [List.pairwise_cons]
        refine ⟨?_, ?_⟩
        · intro y hy
          rcases List.mem_cons.mp hy with rfl | hy2
          · exact h
          · exact le_trans (hx y hy2) h
        · rw [List.pairwise_cons]
          exact ⟨hx, hxs⟩
      · simp only [insertBySizeDesc, if_neg h]
        rw [List.pairwise_cons]
        refine ⟨?_, ih hxs⟩
        intro y hy
        have hy2 := (insertBySizeDesc_perm xs e).mem_iff.mp hy
        rcases List.mem_cons.mp hy2 with rfl | hy3
        · omega
        · exact hx y hy3

/-- Helper for C1: the stable descending sort is sorted by descending
file_size. -/
theorem sortDescBySize_pairwise :
    ∀ l : List Entry, List.Pairwise (fun a b => szv b ≤ szv a) (sortDescBySize l) := by
  intro l
  induction l with
  | nil => exact List.Pairwise.nil
  | cons e rest ih => exact insertBySizeDesc_pairwise (sortDescBySize rest) e ih

/-- Helper for C1: lists of at most one element are trivially sorted. -/
theorem pairwise_of_short :
    ∀ l : List Entry, l.length ≤ 1 →
      List.Pairwise (fun a b => szv b ≤ szv a) l := by
  intro l h
  rcases l with _ | ⟨a, _ | ⟨b, rest⟩⟩
  · exact List.Pairwise.nil
  · exact List.pairwise_singleton _ _
  · simp at h

/-- C1: in automatic mode, when the similarity oracle answers false on the
whole group ordered premium-first-then-by-descending-size, process_group
stops with exactly the two console notices and performs no deletion and no
other effect; the path list handed to the oracle is indeed the stable
descending-size order of the group split premium-first. -/
theorem auto_mode_group_skip :
    ∀ (env : Env) (group : List Entry) (ins : List String)
      (sorted prem nonprem : List Entry),
      sort_files_by_size group = Except.ok sorted →
      separate_premium_and_non_premium_files sorted = (prem, nonprem) →
      env.frames ((prem ++ nonprem).map Entry.file_path) = false →
      process_group env group true ins =
        Except.ok ([Event.logged "In auto-delete mode.",
          Event.logged "Frames do not match. Skipping group."], ins) ∧
      (∀ p : String, Event.deleted p ∉
        [Event.logged "In auto-delete mode.",
         Event.logged "Frames do not match. Skipping group."]) ∧
      sorted.Perm group ∧
      List.Pairwise (fun a b => szv b ≤ szv a) sorted ∧
      prem = sorted.filter isPremium ∧
      nonprem = sorted.filter (fun e => !(isPremium e)) := by
  intro env group ins sorted prem nonprem hsort hsep hfr
  have hfilters := separate_eq_filters sorted
  rw [hsep] at hfilters
  have hprem : prem = sorted.filter isPremium :=
    ((Prod.mk.injEq _ _ _ _).mp hfilters).1
  have hnonprem : nonprem = sorted.filter (fun e => !(isPremium e)) :=
    ((Prod.mk.injEq _ _ _ _).mp hfilters).2
  have hsorted : sorted.Perm group ∧
      List.Pairwise (fun a b => szv b ≤ szv a) sorted := by
    by_cases hlen : group.length ≤ 1
    · rw [sort_files_by_size, if_pos hlen] at hsort
      have : group = sorted := (Except.ok.injEq _ _).mp hsort
      subst this
      exact ⟨List.Perm.refl _, pairwise_of_short group hlen⟩
    · rw [sort_files_by_size, if_neg hlen] at hsort
      by_cases hall : group.all (fun e => e.file_size.isSome) = true
      · rw [if_pos hall] at hsort
        have : sortDescBySize group = sorted := (Except.ok.injEq _ _).mp hsort
        subst this
        exact ⟨sortDescBySize_perm group, sortDescBySize_pairwise group⟩
      · rw [if_neg hall] at hsort
        exact absurd hsort (by simp)
  refine ⟨?_, by intro p; simp, hsorted.1, hsorted.2, hprem, hnonprem⟩
  show (sort_files_by_size group >>= _) = _
  rw [hsort, except_bind_ok]
  rw [show separate_premium_and_non_premium_files sorted = (prem, nonprem) from hsep]
  show (if (true && !env.frames ((prem ++ nonprem).map Entry.file_path)) = true
      then _ else _) = _
  rw [hfr]
  rfl

/-- C1 witness: the automatic skip evaluated on a concrete two-member group
with an always-false similarity oracle. -/
theorem auto_mode_group_skip_witness :
    process_group env0 [eA, eB] true [] =
      Except.ok ([Event.logged "In auto-delete mode.",
        Event.logged "Frames do not match. Skipping group."], []) :=
  (auto_mode_group_skip env0 [eA, eB] [] [eA, eB] [] [eA, eB] rfl rfl rfl).1

/-- Helper for C9: when the liveness probe resolves to not-live, the
single-model candidate loop emits no notification event. -/
theorem psm_loop_no_notify :
    ∀ (env : Env) (biggest : Option Entry) (auto : Bool) (l : List Entry)
      (ins ins2 : List String) (evs : List Event),
      is_server_live env.probe = Except.ok false →
      psm_loop env biggest auto l ins = Except.ok (evs, ins2) →
      ∀ v1 v2 ph : String, Event.notified v1 v2 ph ∉ evs := by
  intro env biggest auto l
  induction l with
  | nil =>
      intro ins ins2 evs _ heq v1 v2 ph
      have h2 := (Except.ok.injEq _ _).mp
        (show Except.ok (([] : List Event), ins) = Except.ok (evs, ins2) from heq)
      rw [← ((Prod.mk.injEq _ _ _ _).mp h2).1]
      exact List.not_mem_nil _
  | cons e rest ih =>
      intro ins ins2 evs hlive heq v1 v2 ph
      cases biggest with
      | none =>
          simp only [psm_loop] at heq
          by_cases hbe : some e = (none : Option Entry)
          · exact absurd hbe (by simp)
          · rw [if_neg hbe] at heq
            exact absurd heq (by simp [getEntry, except_bind_err])
      | some b =>
          simp only [psm_loop] at heq
          by_cases hbe : some e = some b
          · rw [if_pos hbe] at heq
            exact ih ins ins2 evs hlive heq v1 v2 ph
          · rw [if_neg hbe] at heq
            rw [show getEntry (some b) = Except.ok b from rfl, except_bind_ok,
              hlive, except_bind_ok] at heq
            simp only [Bool.false_eq_true, if_false] at heq
            cases auto with
            | true =>
                simp only [if_pos] at heq
                cases hfm : env.frames [e.file_path, b.file_path] with
                | true =>
                    rw [hfm] at heq
                    simp only [if_pos] at heq
                    cases hrec : psm_loop env (some b) true rest ins with
                    | error err =>
                        rw [hrec] at heq
                        exact absurd heq (by simp [except_bind_err])
                    | ok pr =>
                        obtain ⟨evs1, i2⟩ := pr
                        rw [hrec, except_bind_ok] at heq
                        have h2 := (Except.ok.injEq _ _).mp heq
                        have h3 := ((Prod.mk.injEq _ _ _ _).mp h2).1
                        rw [← h3]
                        intro hmem
                        rw [List.nil_append] at hmem
                        rcases List.mem_cons.mp hmem with hcon | htail
                        · exact Event.noConfusion hcon
                        · exact ih ins i2 evs1 hlive hrec v1 v2 ph htail
                | false =>
                    rw [hfm] at heq
                    simp only [Bool.false_eq_true, if_false] at heq
                    cases hrec : psm_loop env (some b) true rest ins with
                    | error err =>
                        rw [hrec] at heq
                        exact absurd heq (by simp [except_bind_err])
                    | ok pr =>
                        obtain ⟨evs1, i2⟩ := pr
                        rw [hrec, except_bind_ok] at heq
                        have h2 := (Except.ok.injEq _ _).mp heq
                        have h3 := ((Prod.mk.injEq _ _ _ _).mp h2).1
                        rw [← h3]
                        intro hmem
                        rw [List.nil_append] at hmem
                        exact ih ins i2 evs1 hlive hrec v1 v2 ph hmem
            | false =>
                simp only [Bool.false_eq_true, if_false] at heq
                split at heq
                · exact absurd heq (by simp)
                · rename_i choice ins1
                  split at heq
                  · cases hrec : psm_loop env (some b) false rest ins1 with
                    | error err =>
                        rw [hrec] at heq
                        exact absurd heq (by simp [except_bind_err])
                    | ok pr =>
                        obtain ⟨evs1, i2⟩ := pr
                        rw [hrec, except_bind_ok] at heq
                        have h2 := (Except.ok.injEq _ _).mp heq
                        have h3 := ((Prod.mk.injEq _ _ _ _).mp h2).1
                        rw [← h3]
                        intro hmem
                        rw [List.nil_append] at hmem
                        rcases List.mem_cons.mp hmem with hcon | htail
                        · exact Event.noConfusion hcon
                        · exact ih ins1 i2 evs1 hlive hrec v1 v2 ph htail
                  · cases hrec : psm_loop env (some b) false rest ins1 with
                    | error err =>
                        rw [hrec] at heq
                        exact absurd heq (by simp [except_bind_err])
                    | ok pr =>
                        obtain ⟨evs1, i2⟩ := pr
                        rw [hrec, except_bind_ok] at heq
                        have h2 := (Except.ok.injEq _ _).mp heq
                        have h3 := ((Prod.mk.injEq _ _ _ _).mp h2).1
                        rw [← h3]
                        intro hmem
                        rw [List.nil_append] at hmem
                        exact ih ins1 i2 evs1 hlive hrec v1 v2 ph hmem

/-- C9 counterexample: a probe outcome that raises a request exception other
than a ConnectionError (such as a read timeout) is not caught by
is_server_live, and the error propagates out of the whole group resolution,
while the claim states that any error in the probe is caught and logged and
never propagates. -/
theorem probe_error_propagates :
    process_group envX [eA, eB] false [] = Except.error PyErr.requestError ∧
    is_server_live ReqOut.raiseOther = Except.error PyErr.requestError :=
  ⟨rfl, rfl⟩

/-- C9 amended: before every notification update the driver calls the
liveness probe and attempts the update only when the probe returned HTTP
200; a ConnectionError in the probe is caught and treated as not-live, so
the update is skipped, and every request error inside the update call is
caught so update_videos never raises; but a probe error other than a
ConnectionError propagates out of the single-model resolution loop. -/
theorem notify_probe_amended :
    (∀ c : Nat, is_server_live (ReqOut.status c) = Except.ok (decide (c = 200))) ∧
    is_server_live ReqOut.raiseConn = Except.ok false ∧
    (∀ (r : ReqOut) (v1 v2 ph : String),
      update_videos r v1 v2 ph = [Event.notified v1 v2 ph]) ∧
    (∀ (env : Env) (biggest : Option Entry) (prem nonprem : List Entry)
       (auto : Bool) (ins ins2 : List String) (evs : List Event),
      is_server_live env.probe = Except.ok false →
      process_same_model_files env biggest prem nonprem auto ins =
        Except.ok (evs, ins2) →
      ∀ v1 v2 ph : String, Event.notified v1 v2 ph ∉ evs) := by
  refine ⟨fun c => rfl, rfl, fun r v1 v2 ph => rfl, ?_⟩
  intro env biggest prem nonprem auto ins ins2 evs hlive heq v1 v2 ph
  exact psm_loop_no_notify env biggest auto (prem ++ nonprem) ins ins2 evs hlive heq v1 v2 ph

/-- C9 witness: with a ConnectionError-raising probe, a concrete automatic
single-model resolution deletes its loser without emitting any
notification. -/
theorem notify_probe_amended_witness :
    Event.notified "u" "v" "w" ∉ [Event.deleted "a/c.mp4"] :=
  notify_probe_amended.2.2.2 env1 (some eA) [] [eA, eB] true [] []
    [Event.deleted "a/c.mp4"] rfl rfl "u" "v" "w"

end PhashUtils
